import Mathlib

/-!
Shallow embedding of the lost-item-found CSV wizard core
(frontend/src/utils/validation.ts, frontend/src/utils/mapping.ts,
frontend/src/components/LostItemsWizard.tsx), together with theorems
checking the natural-language specification against it.

JavaScript objects with string keys are modelled as association lists in
insertion order; `undefined` (absent key) and `null` are distinguished
wherever the code distinguishes them.  String primitives of the host
(`toLowerCase`, `trim`, `includes`, `split(/\s+/)`) are modelled
character-wise; `toLowerCase` is modelled on the ASCII range, which agrees
with the host on every string the schema and the scenarios use.
-/

set_option autoImplicit false

namespace LostFound

/-- JS `x || ""` on a possibly-absent string: absent and `""` both give `""`. -/
def jsOrEmpty : Option String → String
  | none => ""
  | some s => s

/-- Lookup `o[k]` in a JS object modelled as an association list:
`none` models `undefined` (key absent). -/
def objGet {α : Type} (l : List (String × α)) (k : String) : Option α :=
  match l with
  | [] => none
  | (k', v) :: rest => if k' = k then some v else objGet rest k

/-- JS property assignment `o[k] = v`: replaces the value of an existing key
in place, otherwise appends the key at the end (insertion order). -/
def objSet {α : Type} (l : List (String × α)) (k : String) (v : α) : List (String × α) :=
  match l with
  | [] => [(k, v)]
  | (k', v') :: rest => if k' = k then (k, v) :: rest else (k', v') :: objSet rest k v

/-- JS `s.toLowerCase()`, modelled on the ASCII range (`Char.toLower`). -/
def jsToLower (s : String) : String :=
  String.mk (s.data.map Char.toLower)

/-- JS `s.trim()`: strip leading and trailing whitespace. -/
def jsTrim (s : String) : String :=
  String.mk (((s.data.dropWhile Char.isWhitespace).reverse.dropWhile Char.isWhitespace).reverse)

/-- Does `pattern` occur at the head of `text`? -/
def headMatches : List Char → List Char → Bool
  | [], _ => true
  | _ :: _, [] => false
  | p :: ps, a :: as => p == a && headMatches ps as

/-- Does `pattern` occur anywhere in `text`? -/
def containsSeq : List Char → List Char → Bool
  | text, [] => headMatches [] text
  | [], _ :: _ => false
  | a :: as, p :: ps => headMatches (p :: ps) (a :: as) || containsSeq as (p :: ps)

/-- JS `a.includes(b)` on strings (the empty pattern always matches). -/
def jsIncludes (a b : String) : Bool :=
  containsSeq a.data b.data

/-- Worker for `jsSplitWS`: the flag records whether the previous character
belonged to a whitespace run that has already produced a split. -/
def jsSplitWSAux : Bool → List Char → List Char → List String
  | _, [], acc => [String.mk acc.reverse]
  | inWS, c :: rest, acc =>
    if c.isWhitespace then
      if inWS then jsSplitWSAux true rest acc
      else String.mk acc.reverse :: jsSplitWSAux true rest []
    else jsSplitWSAux false rest (c :: acc)

/-- JS `s.split(/\s+/)`: split on maximal whitespace runs; a leading or a
trailing run contributes an empty-string piece, as in JS. -/
def jsSplitWS (s : String) : List String :=
  jsSplitWSAux false s.data []

/-! ## Data model (frontend/src/types.ts) -/

/-- One canonical schema field. -/
structure CanonicalField where
  name : String
  label : String
  required : Bool
  type : String
  examples : Option (List String)
deriving Repr, DecidableEq

/-- One parsed CSV row: an object from header name to cell value. -/
abbrev Row := List (String × String)

/-- One canonical record: an object from schema field name to string value.
A field can be absent altogether (optional and unmapped). -/
abbrev StandardRecord := List (String × String)

/-- A mapping object: key is a schema field name, value is a CSV header
(`some h`) or `null` (`none`). A key can also be absent from the object. -/
abbrev Mapping := List (String × Option String)

/-- One validation error. -/
structure ValidationError where
  rowIndex : Nat
  field : String
  message : String
  currentValue : Option String
deriving Repr, DecidableEq

/-! ## frontend/src/utils/validation.ts -/

/-- `isValueChanged(oldValue, newValue)`: trimmed comparison;
`oldValue` may be `null`/`undefined` (modelled as `none`). -/
def isValueChanged (oldValue : Option String) (newValue : String) : Bool :=
  let oldTrimmed := jsTrim (jsOrEmpty oldValue)
  let newTrimmed := jsTrim newValue
  oldTrimmed != newTrimmed

/-- Is `y` a leap year (proleptic Gregorian, as the JS `Date` object uses)? -/
def isLeapYear (y : Nat) : Bool :=
  (y % 4 == 0 && y % 100 != 0) || y % 400 == 0

/-- Number of days of month `m` in year `y`. -/
def daysInMonth (y m : Nat) : Nat :=
  if m == 2 then (if isLeapYear y then 29 else 28)
  else if m == 4 || m == 6 || m == 9 || m == 11 then 30
  else 31

/-- Split a character list at every occurrence of `sep`. -/
def splitCharAux (sep : Char) : List Char → List Char → List (List Char)
  | [], acc => [acc.reverse]
  | c :: rest, acc =>
    if c == sep then acc.reverse :: splitCharAux sep rest []
    else splitCharAux sep rest (c :: acc)

/-- Numeric value of a digit string. -/
def natOfDigits (cs : List Char) : Nat :=
  cs.foldl (fun n c => 10 * n + (c.toNat - 48)) 0

/-- Modelled from the spec: `isValidDate` calls the host JavaScript date
parser (`new Date(dateString)` / `getTime`), which is not part of the
repository.  The spec fixes ISO 8601 `YYYY-MM-DD` as the expected format, so
the model accepts exactly the strings whose trimmed form is a valid
`YYYY-MM-DD` calendar date (leap years included); further host-specific date
formats are not modelled. -/
def jsDateParsable (s : String) : Bool :=
  match splitCharAux '-' (jsTrim s).data [] with
  | [y, m, d] =>
    y.length == 4 && m.length == 2 && d.length == 2 &&
    y.all Char.isDigit && m.all Char.isDigit && d.all Char.isDigit &&
    (let yn := natOfDigits y
     let mn := natOfDigits m
     let dn := natOfDigits d
     decide (1 ≤ mn) && decide (mn ≤ 12) && decide (1 ≤ dn) &&
       decide (dn ≤ daysInMonth yn mn))
  | _ => false

/-- `isValidDate(dateString)`: reject empty/whitespace-only strings, then ask
the (modelled) host date parser. -/
def isValidDate (dateString : String) : Bool :=
  if dateString = "" ∨ jsTrim dateString = "" then false
  else jsDateParsable dateString

/-- `isValidEnum(value, examples)`: case-insensitive membership; the value is
lower-cased and trimmed, each example only lower-cased. -/
def isValidEnum (value : String) (examples : List String) : Bool :=
  if value = "" ∨ jsTrim value = "" then false
  else
    let valueLower := jsTrim (jsToLower value)
    examples.any fun ex => jsToLower ex == valueLower

/-- Message of a required-and-empty error. -/
def requiredMessage (label : String) : String :=
  "Pole wymagane \"" ++ label ++ "\" jest puste"

/-- Message of an invalid-date error. -/
def dateMessage (label : String) : String :=
  "Nieprawidłowy format daty dla pola \"" ++ label ++
    "\". Oczekiwany format: YYYY-MM-DD"

/-- Message of an invalid-enum error. -/
def enumMessage (label : String) (examples : List String) : String :=
  "Nieprawidłowa wartość dla pola \"" ++ label ++ "\". Dozwolone wartości: " ++
    String.intercalate ", " examples

/-- Body of the `for (const field of schema)` loop of `validateRecord`: the
errors pushed for one field (`continue` becomes returning early).  The guard
`field.examples && field.examples.length > 0` is modelled with
`field.examples.getD []`: an absent examples list and a present empty one
both fail it, exactly as in JS. -/
def fieldErrors (record : StandardRecord) (rowIndex : Nat)
    (field : CanonicalField) : List ValidationError :=
  let valueStr := jsOrEmpty (objGet record field.name)
  let exs := field.examples.getD []
  if field.required && (jsTrim valueStr == "") then
    [⟨rowIndex, field.name, requiredMessage field.label, none⟩]
  else if jsTrim valueStr == "" then []
  else
    (if field.type == "date" && !isValidDate valueStr then
      [⟨rowIndex, field.name, dateMessage field.label, some valueStr⟩]
     else []) ++
    (if field.type == "enum" && !exs.isEmpty && !isValidEnum valueStr exs then
      [⟨rowIndex, field.name, enumMessage field.label exs, some valueStr⟩]
     else [])

/-- `validateRecord(record, rowIndex, schema)`: concatenate the per-field
errors in schema order. -/
def validateRecord (record : StandardRecord) (rowIndex : Nat) :
    List CanonicalField → List ValidationError
  | [] => []
  | f :: fs => fieldErrors record rowIndex f ++ validateRecord record rowIndex fs

/-- Worker for `validateRecords`, carrying the running row index. -/
def validateRecordsAux (schema : List CanonicalField) :
    List StandardRecord → Nat → List ValidationError
  | [], _ => []
  | r :: rs, i => validateRecord r i schema ++ validateRecordsAux schema rs (i + 1)

/-- `validateRecords(records, schema)`. -/
def validateRecords (records : List StandardRecord)
    (schema : List CanonicalField) : List ValidationError :=
  validateRecordsAux schema records 0

/-- Body of the transform loop of `transformAndValidate` for one schema
field: `if (csvColumn && row[csvColumn] !== undefined) copy else if
(field.required) empty-string`. -/
def transformField (row : Row) (mapping : Mapping) (record : StandardRecord)
    (field : CanonicalField) : StandardRecord :=
  match objGet mapping field.name with
  | some (some csvColumn) =>
    if csvColumn ≠ "" then
      match objGet row csvColumn with
      | some v => objSet record field.name v
      | none => if field.required then objSet record field.name "" else record
    else if field.required then objSet record field.name "" else record
  | _ => if field.required then objSet record field.name "" else record

/-- The record `transformAndValidate` builds from one row. -/
def transformRow (row : Row) (mapping : Mapping)
    (schema : List CanonicalField) : StandardRecord :=
  schema.foldl (transformField row mapping) []

/-- Worker for `transformAndValidate`, carrying the running row index. -/
def transformAndValidateAux (mapping : Mapping) (schema : List CanonicalField) :
    List Row → Nat → List StandardRecord × List ValidationError
  | [], _ => ([], [])
  | row :: rest, i =>
    let record := transformRow row mapping schema
    let (rs, es) := transformAndValidateAux mapping schema rest (i + 1)
    (record :: rs, validateRecord record i schema ++ es)

/-- `transformAndValidate(sampleRows, mapping, schema)`. -/
def transformAndValidate (sampleRows : List Row) (mapping : Mapping)
    (schema : List CanonicalField) :
    List StandardRecord × List ValidationError :=
  transformAndValidateAux mapping schema sampleRows 0

/-! ## frontend/src/utils/mapping.ts -/

/-- `field.label.toLowerCase().replace(/\s+/g, "_").replace(/[()]/g, "")`. -/
def normalizeLabel (label : String) : String :=
  let underscored := String.intercalate "_" (jsSplitWS (jsToLower label))
  String.mk (underscored.data.filter fun c => !(c == '(' || c == ')'))

/-- Check 4 of `isPerfectMapping` for one field with a truthy mapped header:
equality with the field name or the normalized label, or a substring match
name-in-header or header-in-normalized-label. -/
def codePerfectMatch (mappedHeader : String) (field : CanonicalField) : Bool :=
  let headerLower := jsTrim (jsToLower mappedHeader)
  let fieldNameLower := jsToLower field.name
  let fieldLabelNormalized := normalizeLabel field.label
  headerLower == fieldNameLower ||
  headerLower == fieldLabelNormalized ||
  jsIncludes headerLower fieldNameLower ||
  jsIncludes fieldLabelNormalized headerLower

/-- `Object.values(mapping).filter(v => v !== null)`, in insertion order. -/
def mappedValuesOf (mapping : Mapping) : List String :=
  (mapping.map (·.2)).filterMap id

/-- `isPerfectMapping(schema, mapping, csvHeaders)`.  The final threshold
`perfectMatches / mappedFieldsCount >= 0.8` is a JS float comparison; for
every length a JS array can have it is equivalent to the exact comparison
`4 * mappedFieldsCount <= 5 * perfectMatches` used here. -/
def isPerfectMapping (schema : List CanonicalField) (mapping : Mapping)
    (csvHeaders : List String) : Bool :=
  let allRequiredMapped :=
    schema.all fun field => !field.required || !(objGet mapping field.name == some none)
  if !allRequiredMapped then false
  else
    let mappedValues := mappedValuesOf mapping
    if !(mappedValues.length == mappedValues.dedup.length) then false
    else
      let allMappedHeadersExist :=
        mappedValues.all fun header => csvHeaders.contains header
      if !allMappedHeadersExist then false
      else
        let perfectMatches := schema.countP fun field =>
          match objGet mapping field.name with
          | some (some mappedHeader) =>
            mappedHeader != "" && codePerfectMatch mappedHeader field
          | _ => false
        let mappedFieldsCount := mappedValues.length
        decide (0 < mappedFieldsCount) &&
          decide (4 * mappedFieldsCount ≤ 5 * perfectMatches)

/-! ## frontend/src/components/LostItemsWizard.tsx -/

/-- Strategy 1 of `buildDefaultMapping`: first header whose lower-case form
equals the lower-cased field name. -/
def tier1Find (csvHeaders : List String) (fieldNameLower : String) : Option String :=
  csvHeaders.find? fun header => jsToLower header == fieldNameLower

/-- Strategy 2: first header with a substring match in either direction
against the lower-cased field name. -/
def tier2Find (csvHeaders : List String) (fieldNameLower : String) : Option String :=
  csvHeaders.find? fun header =>
    jsIncludes (jsToLower header) fieldNameLower ||
    jsIncludes fieldNameLower (jsToLower header)

/-- Strategy 3: first header containing some whitespace-delimited word of the
lower-cased field label. -/
def tier3Find (csvHeaders : List String) (labelWords : List String) : Option String :=
  csvHeaders.find? fun header =>
    labelWords.any fun word => jsIncludes (jsToLower header) word

/-- The header `buildDefaultMapping` assigns to one schema field: the three
strategies tried in order, stopping at the first that matches. -/
def matchFieldHeader (csvHeaders : List String) (field : CanonicalField) : Option String :=
  let fieldNameLower := jsToLower field.name
  let fieldLabelLower := jsToLower field.label
  match tier1Find csvHeaders fieldNameLower with
  | some h => some h
  | none =>
    match tier2Find csvHeaders fieldNameLower with
    | some h => some h
    | none => tier3Find csvHeaders (jsSplitWS fieldLabelLower)

/-- `buildDefaultMapping(csvHeaders, schema)`: one assignment per schema
field, in schema order, starting from the empty object. -/
def buildDefaultMapping (csvHeaders : List String)
    (schema : List CanonicalField) : Mapping :=
  schema.foldl (fun mapping field => objSet mapping field.name (matchFieldHeader csvHeaders field)) []

/-- The component state `handleFixError` reads and writes. -/
structure WizardState where
  allRows : List Row
  mapping : Mapping
  schema : List CanonicalField
  standardRecords : List StandardRecord
  validationErrors : List ValidationError
deriving Repr, DecidableEq

/-- The current value stored at `(rowIndex, field)` as the fix controller
reads it (`record ? record[field] || "" : ""`): the field's value in the
record at `rowIndex`, empty string when the field or the record is absent. -/
def currentValueAt (s : WizardState) (rowIndex : Nat) (field : String) : String :=
  match s.standardRecords[rowIndex]? with
  | some record => jsOrEmpty (objGet record field)
  | none => ""

/-- `handleFixError(rowIndex, field, newValue)` as a state transformer.
`none` models the `TypeError` thrown by `recordToUpdate[field] = newValue`
when `updatedRecords[rowIndex]` is `undefined`; the raw-row update is guarded
by `csvColumn && allRows[rowIndex]` and cannot throw. -/
def handleFixError (s : WizardState) (rowIndex : Nat) (field : String)
    (newValue : String) : Option WizardState :=
  let oldValue := currentValueAt s rowIndex field
  if !isValueChanged (some oldValue) newValue then
    some s
  else
    let allRows' :=
      match objGet s.mapping field with
      | some (some csvColumn) =>
        if csvColumn ≠ "" then
          match s.allRows[rowIndex]? with
          | some row => s.allRows.set rowIndex (objSet row csvColumn newValue)
          | none => s.allRows
        else s.allRows
      | _ => s.allRows
    match s.standardRecords[rowIndex]? with
    | none => none
    | some record =>
      let updatedRecords :=
        s.standardRecords.set rowIndex (objSet record field newValue)
      let newErrors := validateRecords updatedRecords s.schema
      some { s with
              allRows := allRows'
              standardRecords := updatedRecords
              validationErrors := newErrors }

/-! ## Claim-side notions and concrete scenario data -/

/-- The normalized-name match as the spec words it: equality with the field
name or with the normalized label, or a substring match in either direction
against either normalized form (all four substring directions). -/
def claimPerfectMatch (mappedHeader : String) (field : CanonicalField) : Bool :=
  let headerLower := jsTrim (jsToLower mappedHeader)
  let fieldNameLower := jsToLower field.name
  let fieldLabelNormalized := normalizeLabel field.label
  headerLower == fieldNameLower ||
  headerLower == fieldLabelNormalized ||
  jsIncludes headerLower fieldNameLower ||
  jsIncludes fieldNameLower headerLower ||
  jsIncludes fieldLabelNormalized headerLower ||
  jsIncludes headerLower fieldLabelNormalized

/-- Auto-Mapper strategy 1 qualification of one header for one field:
exact case-insensitive equality with the field name. -/
def tier1Q (field : CanonicalField) (header : String) : Bool :=
  jsToLower header == jsToLower field.name

/-- Auto-Mapper strategy 2 qualification: case-insensitive substring
containment in either direction between the header and the field name. -/
def tier2Q (field : CanonicalField) (header : String) : Bool :=
  jsIncludes (jsToLower header) (jsToLower field.name) ||
  jsIncludes (jsToLower field.name) (jsToLower header)

/-- Auto-Mapper strategy 3 qualification: some whitespace-delimited word of
the field label occurs case-insensitively in the header. -/
def tier3Q (field : CanonicalField) (header : String) : Bool :=
  (jsSplitWS (jsToLower field.label)).any fun word =>
    jsIncludes (jsToLower header) word

/-- The mapped header of a field when the mapping value is truthy
(present, non-null and non-empty) — the condition under which the
transformer and `isPerfectMapping`'s check 4 use it. -/
def truthyMappedHeader (mapping : Mapping) (field : CanonicalField) : Option String :=
  match objGet mapping field.name with
  | some (some c) => if c = "" then none else some c
  | _ => none

/-- The value the transformer stores for one schema field of one row
(`none`: the field is left absent): the row's value under the truthy mapped
header when the row has it, otherwise the empty string for a required field
and nothing for an optional one. -/
def transformedValue (row : Row) (mapping : Mapping)
    (field : CanonicalField) : Option String :=
  match truthyMappedHeader mapping field with
  | some c =>
    match objGet row c with
    | some v => some v
    | none => if field.required then some "" else none
  | none => if field.required then some "" else none

/-- Scenario 1 field: the required enum field `status`. -/
def statusField : CanonicalField :=
  ⟨"status", "Status", true, "enum",
    some ["przechowywany", "wydany właścicielowi", "zlikwidowany"]⟩

/-- Scenario 2 field: the required date field `found_date`. -/
def foundDateField : CanonicalField :=
  ⟨"found_date", "Data znalezienia", true, "date", none⟩

/-- Scenario 3 field: `item_category` with label `Kategoria przedmiotu`. -/
def itemCategoryField : CanonicalField :=
  ⟨"item_category", "Kategoria przedmiotu", true, "string", none⟩

/-- An optional string field, as `storage_place` of the schema. -/
def storagePlaceField : CanonicalField :=
  ⟨"storage_place", "Miejsce przechowywania", false, "string", none⟩

/-- A required string field, as `id` of the schema. -/
def idField : CanonicalField :=
  ⟨"id", "Identyfikator", true, "string", none⟩

/-- A small concrete wizard state used by the witnesses: one row, one
optional field, one record holding `"dokument "` with a trailing space. -/
def demoState : WizardState :=
  { allRows := [[("col", "dokument ")]]
    mapping := [("storage_place", some "col")]
    schema := [storagePlaceField]
    standardRecords := [[("storage_place", "dokument ")]]
    validationErrors :=
      [⟨0, "storage_place", "Nieprawidłowa wartość", some "dokument "⟩] }

/-! ## Helper lemmas about JS objects -/

theorem objGet_objSet_self {α : Type} (l : List (String × α)) (k : String) (v : α) :
    objGet (objSet l k v) k = some v := by
  induction l with
  | nil => simp [objSet, objGet]
  | cons p rest ih =>
    obtain ⟨k', v'⟩ := p
    by_cases h : k' = k
    · simp [objSet, objGet, h]
    · simp [objSet, objGet, h, ih]

theorem objGet_objSet_ne {α : Type} (l : List (String × α)) (k k' : String) (v : α)
    (h : k' ≠ k) : objGet (objSet l k v) k' = objGet l k' := by
  induction l with
  | nil => simp [objSet, objGet, Ne.symm h]
  | cons p rest ih =>
    obtain ⟨k₀, v₀⟩ := p
    simp only [objSet]
    by_cases h₀ : k₀ = k
    · subst h₀
      simp [objGet, Ne.symm h]
    · by_cases h₁ : k₀ = k'
      · simp [objGet, h₀, h₁, h]
      · simp [objGet, h₀, h₁, ih]

theorem objGet_isSome_of_mem_keys {α : Type} (l : List (String × α)) (k : String)
    (h : k ∈ l.map (·.1)) : ∃ v, objGet l k = some v := by
  induction l with
  | nil => simp at h
  | cons p rest ih =>
    obtain ⟨k₀, v₀⟩ := p
    by_cases h₀ : k₀ = k
    · exact ⟨v₀, by simp [objGet, h₀]⟩
    · have : k ∈ rest.map (·.1) := by
        simp only [List.map_cons, List.mem_cons] at h
        exact h.resolve_left (fun hh => h₀ hh.symm)
      obtain ⟨v, hv⟩ := ih this
      exact ⟨v, by simp [objGet, h₀, hv]⟩

theorem objGet_of_mem_nodup {α : Type} (l : List (String × α)) (k : String) (v : α)
    (hnd : (l.map (·.1)).Nodup) (h : (k, v) ∈ l) : objGet l k = some v := by
  induction l with
  | nil => simp at h
  | cons p rest ih =>
    obtain ⟨k₀, v₀⟩ := p
    rw [List.map_cons, List.nodup_cons] at hnd
    rcases List.mem_cons.mp h with heq | hmem
    · have hk : k = k₀ := congrArg Prod.fst heq
      have hv : v = v₀ := congrArg Prod.snd heq
      subst hk
      subst hv
      simp [objGet]
    · have hk : k₀ ≠ k := by
        intro hh
        exact hnd.1 (hh ▸ List.mem_map_of_mem (·.1) hmem)
      simp [objGet, hk, ih hnd.2 hmem]

theorem mem_of_objGet_eq_some {α : Type} (l : List (String × α)) (k : String) (v : α)
    (h : objGet l k = some v) : (k, v) ∈ l := by
  induction l with
  | nil => simp [objGet] at h
  | cons p rest ih =>
    obtain ⟨k₀, v₀⟩ := p
    by_cases h₀ : k₀ = k
    · subst h₀
      simp [objGet] at h
      simp [h]
    · simp only [objGet, if_neg h₀] at h
      exact List.mem_cons_of_mem _ (ih h)

/-! ## Helper lemmas about `List.find?` -/

theorem find?_decomp {α : Type} (p : α → Bool) :
    ∀ (l : List α) (b : α), l.find? p = some b →
      p b = true ∧ ∃ pre post, l = pre ++ b :: post ∧ ∀ a ∈ pre, p a = false := by
  intro l
  induction l with
  | nil => intro b h; simp [List.find?] at h
  | cons x xs ih =>
    intro b h
    by_cases hp : p x = true
    · rw [List.find?_cons_of_pos _ hp] at h
      cases h
      exact ⟨hp, [], xs, rfl, by simp⟩
    · rw [List.find?_cons_of_neg _ (by simpa using hp)] at h
      obtain ⟨hb, pre, post, hl, hpre⟩ := ih b h
      refine ⟨hb, x :: pre, post, by simp [hl], ?_⟩
      intro a ha
      rcases List.mem_cons.mp ha with rfl | ha
      · simpa using hp
      · exact hpre a ha

/-! ## Structure of the per-field validation output -/

theorem fieldErrors_mem (r : StandardRecord) (i : Nat) (f : CanonicalField) :
    ∀ e ∈ fieldErrors r i f, e.rowIndex = i ∧ e.field = f.name := by
  intro e he
  simp only [fieldErrors] at he
  split at he
  · rw [List.mem_singleton] at he
    subst he
    exact ⟨rfl, rfl⟩
  · split at he
    · simp at he
    · rcases List.mem_append.mp he with h | h
      · split at h
        · rw [List.mem_singleton] at h
          subst h
          exact ⟨rfl, rfl⟩
        · simp at h
      · split at h
        · rw [List.mem_singleton] at h
          subst h
          exact ⟨rfl, rfl⟩
        · simp at h

theorem fieldErrors_length_le (r : StandardRecord) (i : Nat) (f : CanonicalField) :
    (fieldErrors r i f).length ≤ 1 := by
  simp only [fieldErrors]
  split
  · simp
  · split
    · simp
    · by_cases hd : (f.type == "date") = true
      · have ht : f.type = "date" := by simpa using hd
        have he : (f.type == "enum") = false := by simp [ht]
        rw [he]
        simp only [Bool.false_and, Bool.false_eq_true, if_false, List.append_nil]
        split <;> simp
      · have hd' : (f.type == "date") = false := by simpa using hd
        rw [hd']
        simp only [Bool.false_and, Bool.false_eq_true, if_false, List.nil_append]
        split <;> simp

theorem fieldErrors_shape (r : StandardRecord) (i : Nat) (f : CanonicalField) :
    fieldErrors r i f = [] ∨
      ∃ e, fieldErrors r i f = [e] ∧ e.rowIndex = i ∧ e.field = f.name := by
  match h : fieldErrors r i f with
  | [] => exact Or.inl rfl
  | [e] =>
    refine Or.inr ⟨e, rfl, ?_⟩
    have := fieldErrors_mem r i f e (by rw [h]; exact List.mem_singleton.mpr rfl)
    exact this
  | e₁ :: e₂ :: rest =>
    have := fieldErrors_length_le r i f
    rw [h] at this
    simp at this

theorem fieldErrors_of_required_empty (r : StandardRecord) (i : Nat)
    (f : CanonicalField) (hreq : f.required = true)
    (hemp : jsTrim (jsOrEmpty (objGet r f.name)) = "") :
    fieldErrors r i f = [⟨i, f.name, requiredMessage f.label, none⟩] := by
  simp [fieldErrors, hreq, hemp]

theorem fieldErrors_of_optional_empty (r : StandardRecord) (i : Nat)
    (f : CanonicalField) (hreq : f.required = false)
    (hemp : jsTrim (jsOrEmpty (objGet r f.name)) = "") :
    fieldErrors r i f = [] := by
  simp [fieldErrors, hreq, hemp]

theorem validateRecord_mem (r : StandardRecord) (i : Nat) :
    ∀ (schema : List CanonicalField), ∀ e ∈ validateRecord r i schema, e.rowIndex = i := by
  intro schema
  induction schema with
  | nil => intro e he; simp [validateRecord] at he
  | cons f fs ih =>
    intro e he
    rw [validateRecord] at he
    rcases List.mem_append.mp he with h | h
    · exact (fieldErrors_mem r i f e h).1
    · exact ih e h

theorem validateRecord_fields_sublist (r : StandardRecord) (i : Nat) :
    ∀ (schema : List CanonicalField),
      List.Sublist ((validateRecord r i schema).map (·.field)) (schema.map (·.name)) := by
  intro schema
  induction schema with
  | nil => simp [validateRecord]
  | cons f fs ih =>
    rw [validateRecord, List.map_append, List.map_cons]
    rcases fieldErrors_shape r i f with h | ⟨e, h, _, hf⟩
    · rw [h]
      exact (List.nil_append _) ▸ List.Sublist.cons f.name ih
    · rw [h]
      simpa [hf] using List.Sublist.cons₂ f.name ih

theorem validateRecordsAux_mem_ge (schema : List CanonicalField) :
    ∀ (rs : List StandardRecord) (i : Nat), ∀ e ∈ validateRecordsAux schema rs i,
      i ≤ e.rowIndex := by
  intro rs
  induction rs with
  | nil => intro i e he; simp [validateRecordsAux] at he
  | cons r rest ih =>
    intro i e he
    rw [validateRecordsAux] at he
    rcases List.mem_append.mp he with h | h
    · exact (validateRecord_mem r i schema e h).ge
    · exact Nat.le_of_succ_le (ih (i + 1) e h)

theorem validateRecordsAux_pairwise (schema : List CanonicalField) :
    ∀ (rs : List StandardRecord) (i : Nat),
      (validateRecordsAux schema rs i).Pairwise (fun a b => a.rowIndex ≤ b.rowIndex) := by
  intro rs
  induction rs with
  | nil => intro i; simp [validateRecordsAux]
  | cons r rest ih =>
    intro i
    rw [validateRecordsAux]
    rw [List.pairwise_append]
    refine ⟨?_, ih (i + 1), ?_⟩
    · exact List.pairwise_of_forall_mem_list fun a ha b hb =>
        (validateRecord_mem r i schema a ha).le.trans
          (validateRecord_mem r i schema b hb).ge
    · intro a ha b hb
      have h1 := validateRecord_mem r i schema a ha
      have h2 := validateRecordsAux_mem_ge schema rest (i + 1) b hb
      omega

/-! ## Characterizing the transformer -/

theorem transformField_default_ne (rec : StandardRecord) (f : CanonicalField)
    (k : String) (h : k ≠ f.name) :
    objGet (if f.required = true then objSet rec f.name "" else rec) k = objGet rec k := by
  split
  · exact objGet_objSet_ne _ _ _ _ h
  · rfl

theorem transformField_ne (row : Row) (mapping : Mapping) (rec : StandardRecord)
    (f : CanonicalField) (k : String) (h : k ≠ f.name) :
    objGet (transformField row mapping rec f) k = objGet rec k := by
  rcases hm : objGet mapping f.name with _ | mv
  · simp only [transformField, hm]
    exact transformField_default_ne rec f k h
  · rcases mv with _ | c
    · simp only [transformField, hm]
      exact transformField_default_ne rec f k h
    · by_cases hc : c = ""
      · subst hc
        simp only [transformField, hm, if_neg (show ¬ ("" : String) ≠ "" from fun hh => hh rfl)]
        exact transformField_default_ne rec f k h
      · simp only [transformField, hm, if_pos hc]
        rcases hv : objGet row c with _ | v
        · simp only [hv]
          exact transformField_default_ne rec f k h
        · simp only [hv]
          exact objGet_objSet_ne _ _ _ _ h

theorem transformField_default_self (rec : StandardRecord) (f : CanonicalField) :
    objGet (if f.required = true then objSet rec f.name "" else rec) f.name =
      match (if f.required = true then some "" else none : Option String) with
      | some v => some v
      | none => objGet rec f.name := by
  split
  · exact objGet_objSet_self _ _ _
  · rfl

theorem transformField_self (row : Row) (mapping : Mapping) (rec : StandardRecord)
    (f : CanonicalField) :
    objGet (transformField row mapping rec f) f.name =
      match transformedValue row mapping f with
      | some v => some v
      | none => objGet rec f.name := by
  rcases hm : objGet mapping f.name with _ | mv
  · simp only [transformField, transformedValue, truthyMappedHeader, hm]
    exact transformField_default_self rec f
  · rcases mv with _ | c
    · simp only [transformField, transformedValue, truthyMappedHeader, hm]
      exact transformField_default_self rec f
    · by_cases hc : c = ""
      · subst hc
        simp only [transformField, transformedValue, truthyMappedHeader, hm,
          if_neg (show ¬ ("" : String) ≠ "" from fun hh => hh rfl), if_pos rfl]
        exact transformField_default_self rec f
      · simp only [transformField, transformedValue, truthyMappedHeader, hm,
          if_pos hc, if_neg hc]
        rcases hv : objGet row c with _ | v
        · simp only [hv]
          exact transformField_default_self rec f
        · simp only [hv]
          exact objGet_objSet_self _ _ _

theorem transform_foldl_not_mem (row : Row) (mapping : Mapping) :
    ∀ (fields : List CanonicalField) (rec : StandardRecord) (k : String),
      k ∉ fields.map (·.name) →
      objGet (fields.foldl (transformField row mapping) rec) k = objGet rec k := by
  intro fields
  induction fields with
  | nil => intro rec k _; rfl
  | cons g gs ih =>
    intro rec k hk
    rw [List.map_cons, List.mem_cons] at hk
    push_neg at hk
    rw [List.foldl_cons, ih _ _ hk.2]
    exact transformField_ne row mapping rec g k hk.1

theorem transform_foldl_objGet (row : Row) (mapping : Mapping) :
    ∀ (fields : List CanonicalField) (rec : StandardRecord) (f : CanonicalField),
      f ∈ fields → (fields.map (·.name)).Nodup →
      objGet (fields.foldl (transformField row mapping) rec) f.name =
        match transformedValue row mapping f with
        | some v => some v
        | none => objGet rec f.name := by
  intro fields
  induction fields with
  | nil => intro rec f hf; simp at hf
  | cons g gs ih =>
    intro rec f hf hnd
    rw [List.map_cons, List.nodup_cons] at hnd
    rw [List.foldl_cons]
    rcases List.mem_cons.mp hf with rfl | hf
    · rw [transform_foldl_not_mem row mapping gs _ _ hnd.1]
      exact transformField_self row mapping rec f
    · rw [ih _ f hf hnd.2]
      cases transformedValue row mapping f with
      | some v => rfl
      | none =>
        have hne : f.name ≠ g.name := by
          intro hh
          exact hnd.1 (hh ▸ List.mem_map_of_mem (·.name) hf)
        simpa using transformField_ne row mapping rec g f.name hne

theorem transformRow_objGet (row : Row) (mapping : Mapping)
    (schema : List CanonicalField) (f : CanonicalField) (hf : f ∈ schema)
    (hnd : (schema.map (·.name)).Nodup) :
    objGet (transformRow row mapping schema) f.name = transformedValue row mapping f := by
  unfold transformRow
  rw [transform_foldl_objGet row mapping schema [] f hf hnd]
  cases transformedValue row mapping f <;> simp [objGet]

theorem transformAndValidateAux_records (mapping : Mapping) (schema : List CanonicalField) :
    ∀ (rows : List Row) (i : Nat),
      (transformAndValidateAux mapping schema rows i).1 =
        rows.map (fun row => transformRow row mapping schema) := by
  intro rows
  induction rows with
  | nil => intro i; rfl
  | cons row rest ih =>
    intro i
    simp only [transformAndValidateAux, List.map_cons, ih (i + 1)]

/-! ## Characterizing the Auto-Mapper -/

theorem bdm_foldl_not_mem (csvHeaders : List String) :
    ∀ (fields : List CanonicalField) (m : Mapping) (k : String),
      k ∉ fields.map (·.name) →
      objGet (fields.foldl
        (fun mp fl => objSet mp fl.name (matchFieldHeader csvHeaders fl)) m) k = objGet m k := by
  intro fields
  induction fields with
  | nil => intro m k _; rfl
  | cons g gs ih =>
    intro m k hk
    rw [List.map_cons, List.mem_cons] at hk
    push_neg at hk
    rw [List.foldl_cons, ih _ _ hk.2]
    exact objGet_objSet_ne _ _ _ _ hk.1

theorem bdm_foldl_objGet (csvHeaders : List String) :
    ∀ (fields : List CanonicalField) (m : Mapping) (f : CanonicalField),
      f ∈ fields → (fields.map (·.name)).Nodup →
      objGet (fields.foldl
        (fun mp fl => objSet mp fl.name (matchFieldHeader csvHeaders fl)) m) f.name =
        some (matchFieldHeader csvHeaders f) := by
  intro fields
  induction fields with
  | nil => intro m f hf; simp at hf
  | cons g gs ih =>
    intro m f hf hnd
    rw [List.map_cons, List.nodup_cons] at hnd
    rw [List.foldl_cons]
    rcases List.mem_cons.mp hf with rfl | hf
    · rw [bdm_foldl_not_mem csvHeaders gs _ _ hnd.1]
      exact objGet_objSet_self _ _ _
    · exact ih _ f hf hnd.2

theorem buildDefaultMapping_objGet (csvHeaders : List String)
    (schema : List CanonicalField) (f : CanonicalField) (hf : f ∈ schema)
    (hnd : (schema.map (·.name)).Nodup) :
    objGet (buildDefaultMapping csvHeaders schema) f.name =
      some (matchFieldHeader csvHeaders f) := by
  unfold buildDefaultMapping
  exact bdm_foldl_objGet csvHeaders schema [] f hf hnd

/-! ## Destructuring `isPerfectMapping` -/

theorem isPerfectMapping_true_parts (schema : List CanonicalField) (mapping : Mapping)
    (csvHeaders : List String)
    (h : isPerfectMapping schema mapping csvHeaders = true) :
    (∀ f ∈ schema, f.required = true → objGet mapping f.name ≠ some none) ∧
    (mappedValuesOf mapping).length = (mappedValuesOf mapping).dedup.length ∧
    (∀ hd ∈ mappedValuesOf mapping, hd ∈ csvHeaders) ∧
    0 < (mappedValuesOf mapping).length ∧
    4 * (mappedValuesOf mapping).length ≤ 5 * schema.countP (fun f =>
      match objGet mapping f.name with
      | some (some mh) => mh != "" && codePerfectMatch mh f
      | _ => false) := by
  simp only [isPerfectMapping] at h
  split at h
  · simp at h
  · rename_i h1
    split at h
    · simp at h
    · rename_i h2
      split at h
      · simp at h
      · rename_i h3
        rw [Bool.and_eq_true, decide_eq_true_iff, decide_eq_true_iff] at h
        refine ⟨by simpa using h1, by simpa using h2, ?_, h.1, h.2⟩
        intro hd hmem
        have h3' : ((mappedValuesOf mapping).all fun header => csvHeaders.contains header) = true := by
          simpa using h3
        rw [List.all_eq_true] at h3'
        simpa using h3' hd hmem

theorem isPerfectMapping_false_of_required_null (schema : List CanonicalField)
    (mapping : Mapping) (csvHeaders : List String)
    (hex : ∃ f ∈ schema, f.required = true ∧ objGet mapping f.name = some none) :
    isPerfectMapping schema mapping csvHeaders = false := by
  obtain ⟨f, hf, hreq, hnull⟩ := hex
  have hall : (schema.all fun g => !g.required || !(objGet mapping g.name == some none)) = false := by
    rw [List.all_eq_false]
    exact ⟨f, hf, by simp [hreq, hnull]⟩
  simp only [isPerfectMapping]
  rw [hall]
  rfl

theorem isPerfectMapping_false_of_dup (schema : List CanonicalField)
    (mapping : Mapping) (csvHeaders : List String)
    (hdup : ¬ (mappedValuesOf mapping).Nodup) :
    isPerfectMapping schema mapping csvHeaders = false := by
  simp only [isPerfectMapping]
  split
  · rfl
  · split
    · rfl
    · rename_i h2
      exfalso
      apply hdup
      have hlen : (mappedValuesOf mapping).length = (mappedValuesOf mapping).dedup.length := by
        simpa using h2
      have heq := (List.dedup_sublist (mappedValuesOf mapping)).eq_of_length hlen.symm
      exact List.dedup_eq_self.mp heq

theorem isPerfectMapping_false_of_none_mapped (schema : List CanonicalField)
    (mapping : Mapping) (csvHeaders : List String)
    (hmv : mappedValuesOf mapping = []) :
    isPerfectMapping schema mapping csvHeaders = false := by
  simp only [isPerfectMapping, hmv]
  split
  · rfl
  · split
    · rfl
    · split
      · rfl
      · simp

theorem claimPerfectMatch_of_code (mh : String) (f : CanonicalField)
    (h : codePerfectMatch mh f = true) : claimPerfectMatch mh f = true := by
  simp only [codePerfectMatch] at h
  simp only [claimPerfectMatch]
  simp only [Bool.or_eq_true] at h ⊢
  tauto

/-! ## Claims C1, C2, C10: the fix controller -/

/-- C1: for every current record set and error list, and for every rowIndex,
field and newValue whose trimmed form equals the trimmed current value stored
at `(rowIndex, field)`, `handleFixError` is a no-op: the whole state — records,
raw source rows and error list — is returned unchanged, and in particular
every existing error (also one for that very cell) remains in the list. -/
theorem C1_noop_fix_is_identity (s : WizardState) (rowIndex : Nat)
    (field newValue : String)
    (h : jsTrim newValue = jsTrim (currentValueAt s rowIndex field)) :
    handleFixError s rowIndex field newValue = some s ∧
    ∀ e ∈ s.validationErrors,
      ∃ s', handleFixError s rowIndex field newValue = some s' ∧
        e ∈ s'.validationErrors := by
  have hchg : isValueChanged (some (currentValueAt s rowIndex field)) newValue = false := by
    simp [isValueChanged, jsOrEmpty, h]
  have hmain : handleFixError s rowIndex field newValue = some s := by
    simp only [handleFixError, hchg, Bool.not_false, if_true]
  exact ⟨hmain, fun e he => ⟨s, hmain, he⟩⟩

/-- C1 witness: fixing `"dokument "` (trailing space) with `"dokument"` is
trim-equal, so the state of `demoState` is untouched. -/
theorem C1_noop_fix_is_identity_witness :
    handleFixError demoState 0 "storage_place" "dokument" = some demoState :=
  (C1_noop_fix_is_identity demoState 0 "storage_place" "dokument" (by decide)).1

/-- C2: when the fix controller applies a genuine value change at an
in-bounds `(rowIndex, field)`, the published error list equals
`validateRecords` of the updated full record set and the schema — a full
recomputation replacing the previous list; consequently an error exists for a
`(row, field)` pair in the published list iff validation currently fails for
that pair. -/
theorem C2_changed_fix_recomputes_errors (s : WizardState) (rowIndex : Nat)
    (field newValue : String)
    (hlt : rowIndex < s.standardRecords.length)
    (hch : jsTrim newValue ≠ jsTrim (currentValueAt s rowIndex field)) :
    ∃ s', handleFixError s rowIndex field newValue = some s' ∧
      s'.schema = s.schema ∧
      s'.validationErrors = validateRecords s'.standardRecords s'.schema ∧
      ∀ i g, (∃ e ∈ s'.validationErrors, e.rowIndex = i ∧ e.field = g) ↔
        (∃ e ∈ validateRecords s'.standardRecords s'.schema,
          e.rowIndex = i ∧ e.field = g) := by
  have hchg : isValueChanged (some (currentValueAt s rowIndex field)) newValue = true := by
    simp [isValueChanged, jsOrEmpty]
    exact Ne.symm hch
  have hrec : s.standardRecords[rowIndex]? = some s.standardRecords[rowIndex] :=
    List.getElem?_eq_getElem hlt
  simp only [handleFixError, hchg, Bool.not_true, Bool.false_eq_true, if_false, hrec]
  exact ⟨_, rfl, rfl, rfl, fun i g => Iff.rfl⟩

/-- C2 witness: changing `"dokument "` to `"inny"` in `demoState` succeeds and
republishes exactly the recomputed error list. -/
theorem C2_changed_fix_recomputes_errors_witness :
    (handleFixError demoState 0 "storage_place" "inny").map (·.validationErrors) =
      (handleFixError demoState 0 "storage_place" "inny").map
        (fun t => validateRecords t.standardRecords t.schema) := by
  obtain ⟨s', hs, hsch, herr, hiff⟩ :=
    C2_changed_fix_recomputes_errors demoState 0 "storage_place" "inny"
      (by decide) (by decide)
  rw [hs]
  simp only [Option.map]
  rw [herr]

/-- C10: the fix controller is total exactly under the in-bounds
precondition: with `rowIndex < records.length` every call completes, while
for every `rowIndex` past the end together with a newValue whose trimmed form
is non-empty the value-changed path reaches the unguarded record update and
throws (modelled as `none`); the guarded raw-row update never throws. -/
theorem C10_fix_in_bounds_total_out_of_bounds_throws :
    (∀ (s : WizardState) (rowIndex : Nat) (field newValue : String),
       rowIndex < s.standardRecords.length →
       (handleFixError s rowIndex field newValue).isSome = true) ∧
    (∀ (s : WizardState) (rowIndex : Nat) (field newValue : String),
       s.standardRecords.length ≤ rowIndex → jsTrim newValue ≠ "" →
       handleFixError s rowIndex field newValue = none) := by
  constructor
  · intro s rowIndex field newValue hlt
    have hrec : s.standardRecords[rowIndex]? = some s.standardRecords[rowIndex] :=
      List.getElem?_eq_getElem hlt
    by_cases hchg : isValueChanged (some (currentValueAt s rowIndex field)) newValue = true
    · simp only [handleFixError, hchg, Bool.not_true, Bool.false_eq_true, if_false, hrec]
      rfl
    · have hchg' : isValueChanged (some (currentValueAt s rowIndex field)) newValue = false := by
        simpa using hchg
      simp only [handleFixError, hchg', Bool.not_false, if_true]
      rfl
  · intro s rowIndex field newValue hge hne
    have hrec : s.standardRecords[rowIndex]? = none := List.getElem?_eq_none hge
    have hcur : currentValueAt s rowIndex field = "" := by
      simp [currentValueAt, hrec]
    have hchg : isValueChanged (some (currentValueAt s rowIndex field)) newValue = true := by
      rw [hcur]
      simp [isValueChanged, jsOrEmpty]
      exact fun hh => hne hh.symm
    simp only [handleFixError, hchg, Bool.not_true, Bool.false_eq_true, if_false, hrec]

/-- C10 witness: an in-bounds fix on `demoState` completes, the same fix at
row 5 (out of bounds) with a non-blank value throws. -/
theorem C10_fix_in_bounds_total_out_of_bounds_throws_witness :
    (handleFixError demoState 0 "storage_place" "inny").isSome = true ∧
    handleFixError demoState 5 "storage_place" "inny" = none :=
  ⟨C10_fix_in_bounds_total_out_of_bounds_throws.1 demoState 0 "storage_place" "inny"
      (by decide),
   C10_fix_in_bounds_total_out_of_bounds_throws.2 demoState 5 "storage_place" "inny"
      (by decide) (by decide)⟩

/-! ## Claims C5, C6, C7: the Validator -/

theorem fieldErrors_enum_nonempty (r : StandardRecord) (i : Nat)
    (f : CanonicalField) (exs : List String) (hty : f.type = "enum")
    (hex : f.examples = some exs) (hne : exs ≠ [])
    (hnem : jsTrim (jsOrEmpty (objGet r f.name)) ≠ "") :
    fieldErrors r i f =
      if isValidEnum (jsOrEmpty (objGet r f.name)) exs then []
      else [⟨i, f.name, enumMessage f.label exs, some (jsOrEmpty (objGet r f.name))⟩] := by
  have hbeq : (jsTrim (jsOrEmpty (objGet r f.name)) == "") = false :=
    beq_eq_false_iff_ne.mpr hnem
  have hie : exs.isEmpty = false := by
    cases exs with
    | nil => exact absurd rfl hne
    | cons a l => rfl
  simp only [fieldErrors, hex, Option.getD_some, hty, hbeq, Bool.and_false,
    Bool.false_eq_true, if_false,
    show (("enum" : String) == "date") = false from by decide, Bool.false_and,
    List.nil_append,
    show (("enum" : String) == "enum") = true from by decide, Bool.true_and,
    hie, Bool.not_false]
  cases hv : isValidEnum (jsOrEmpty (objGet r f.name)) exs <;> simp [hv]

theorem fieldErrors_date_nonempty (r : StandardRecord) (i : Nat)
    (f : CanonicalField) (hty : f.type = "date")
    (hnem : jsTrim (jsOrEmpty (objGet r f.name)) ≠ "") :
    fieldErrors r i f =
      if isValidDate (jsOrEmpty (objGet r f.name)) then []
      else [⟨i, f.name, dateMessage f.label, some (jsOrEmpty (objGet r f.name))⟩] := by
  have hbeq : (jsTrim (jsOrEmpty (objGet r f.name)) == "") = false :=
    beq_eq_false_iff_ne.mpr hnem
  simp only [fieldErrors, hty, hbeq, Bool.and_false, Bool.false_eq_true, if_false,
    show (("date" : String) == "date") = true from by decide, Bool.true_and,
    show (("date" : String) == "enum") = false from by decide, Bool.false_and,
    List.append_nil]
  cases hv : isValidDate (jsOrEmpty (objGet r f.name)) <;> simp [hv]

/-- C5: the Validator emits at most one error per record and field, decided by
the first failing rule: a required field with trimmed-empty value yields
exactly the one required-and-empty error (message naming the field label,
`currentValue` null) and nothing further; an optional trimmed-empty field
yields no error; the overall list is ordered by record index and the errors
of one record follow schema field order. -/
theorem C5_validator_priority_and_order :
    (∀ (r : StandardRecord) (i : Nat) (f : CanonicalField),
       (fieldErrors r i f).length ≤ 1) ∧
    (∀ (r : StandardRecord) (i : Nat) (f : CanonicalField),
       f.required = true → jsTrim (jsOrEmpty (objGet r f.name)) = "" →
       fieldErrors r i f = [⟨i, f.name, requiredMessage f.label, none⟩]) ∧
    (∀ (r : StandardRecord) (i : Nat) (f : CanonicalField),
       f.required = false → jsTrim (jsOrEmpty (objGet r f.name)) = "" →
       fieldErrors r i f = []) ∧
    (∀ (records : List StandardRecord) (schema : List CanonicalField),
       (validateRecords records schema).Pairwise (fun a b => a.rowIndex ≤ b.rowIndex)) ∧
    (∀ (r : StandardRecord) (i : Nat) (schema : List CanonicalField),
       List.Sublist ((validateRecord r i schema).map (·.field)) (schema.map (·.name)) ∧
       ∀ e ∈ validateRecord r i schema, e.rowIndex = i) := by
  refine ⟨fieldErrors_length_le, fieldErrors_of_required_empty,
    fieldErrors_of_optional_empty, ?_, ?_⟩
  · intro records schema
    exact validateRecordsAux_pairwise schema records 0
  · intro r i schema
    exact ⟨validateRecord_fields_sublist r i schema, validateRecord_mem r i schema⟩

/-- C5 witness: the required field `id` on a record without that field yields
exactly the required-and-empty error. -/
theorem C5_validator_priority_and_order_witness :
    fieldErrors [] 0 idField = [⟨0, idField.name, requiredMessage idField.label, none⟩] :=
  C5_validator_priority_and_order.2.1 [] 0 idField rfl (by decide)

/-- C6: for an enum field with non-empty examples, a non-empty value passes
validation iff its trimmed form case-insensitively equals one of the
examples, else exactly one error listing the allowed values verbatim with the
raw string as `currentValue`; in particular for `status` the value
`"Przechowywany"` yields no error and `"zgubiony"` yields one error listing
all three allowed values. -/
theorem C6_enum_case_insensitive_whitelist :
    (∀ (r : StandardRecord) (i : Nat) (f : CanonicalField) (exs : List String),
       f.type = "enum" → f.examples = some exs → exs ≠ [] →
       jsTrim (jsOrEmpty (objGet r f.name)) ≠ "" →
       ((fieldErrors r i f = [] ↔
          (exs.any fun ex =>
            jsToLower ex == jsTrim (jsToLower (jsOrEmpty (objGet r f.name)))) = true) ∧
        ((exs.any fun ex =>
            jsToLower ex == jsTrim (jsToLower (jsOrEmpty (objGet r f.name)))) = false →
          fieldErrors r i f =
            [⟨i, f.name, enumMessage f.label exs, some (jsOrEmpty (objGet r f.name))⟩]))) ∧
    fieldErrors [("status", "Przechowywany")] 0 statusField = [] ∧
    fieldErrors [("status", "zgubiony")] 0 statusField =
      [⟨0, "status",
        "Nieprawidłowa wartość dla pola \"Status\". Dozwolone wartości: przechowywany, wydany właścicielowi, zlikwidowany",
        some "zgubiony"⟩] := by
  refine ⟨?_, by decide, by decide⟩
  intro r i f exs hty hex hne hnem
  have hvne : jsOrEmpty (objGet r f.name) ≠ "" := fun hh => hnem (by rw [hh]; rfl)
  have heq := fieldErrors_enum_nonempty r i f exs hty hex hne hnem
  have henum : isValidEnum (jsOrEmpty (objGet r f.name)) exs =
      (exs.any fun ex => jsToLower ex == jsTrim (jsToLower (jsOrEmpty (objGet r f.name)))) := by
    unfold isValidEnum
    rw [if_neg (not_or.mpr ⟨hvne, hnem⟩)]
  rw [heq, henum]
  cases hany : (exs.any fun ex =>
      jsToLower ex == jsTrim (jsToLower (jsOrEmpty (objGet r f.name)))) <;>
    simp [hany]

/-- C6 witness: the general enum rule applied to the `status` scenario value
`"zgubiony"` produces the single error listing the three allowed values. -/
theorem C6_enum_case_insensitive_whitelist_witness :
    fieldErrors [("status", "zgubiony")] 0 statusField =
      [⟨0, statusField.name,
        enumMessage statusField.label
          ["przechowywany", "wydany właścicielowi", "zlikwidowany"],
        some "zgubiony"⟩] :=
  (C6_enum_case_insensitive_whitelist.1 [("status", "zgubiony")] 0 statusField
    ["przechowywany", "wydany właścicielowi", "zlikwidowany"]
    rfl rfl (by decide) (by decide)).2 (by decide)

/-- C7: for a date field, a non-empty value that the (modelled) date parser
rejects yields exactly one error naming the expected YYYY-MM-DD format with
the raw string as `currentValue`, and a parsable value yields no error; in
particular `"15.01.2024"` errors and `"2024-01-15"` does not. -/
theorem C7_date_validation :
    (∀ (r : StandardRecord) (i : Nat) (f : CanonicalField),
       f.type = "date" → jsTrim (jsOrEmpty (objGet r f.name)) ≠ "" →
       ((isValidDate (jsOrEmpty (objGet r f.name)) = false →
          fieldErrors r i f =
            [⟨i, f.name, dateMessage f.label, some (jsOrEmpty (objGet r f.name))⟩]) ∧
        (isValidDate (jsOrEmpty (objGet r f.name)) = true →
          fieldErrors r i f = []))) ∧
    fieldErrors [("found_date", "15.01.2024")] 0 foundDateField =
      [⟨0, "found_date", dateMessage "Data znalezienia", some "15.01.2024"⟩] ∧
    fieldErrors [("found_date", "2024-01-15")] 0 foundDateField = [] := by
  refine ⟨?_, by decide, by decide⟩
  intro r i f hty hnem
  have heq := fieldErrors_date_nonempty r i f hty hnem
  rw [heq]
  constructor
  · intro hv
    rw [hv]
    rfl
  · intro hv
    rw [hv]
    rfl

/-- C7 witness: the general date rule applied to the scenario value
`"15.01.2024"` produces the single format error. -/
theorem C7_date_validation_witness :
    fieldErrors [("found_date", "15.01.2024")] 0 foundDateField =
      [⟨0, foundDateField.name, dateMessage foundDateField.label, some "15.01.2024"⟩] :=
  (C7_date_validation.1 [("found_date", "15.01.2024")] 0 foundDateField
    rfl (by decide)).1 (by decide)

/-! ## Claim C3: the Transformer -/

/-- C3 counterexample: `storage_place` is optional and mapped to header
`"col"`, and the row lacks that header; the claim predicts the record holds
the empty string, but the transformer leaves the field absent. -/
theorem C3_counterexample_optional_mapped_missing_header :
    objGet ([("storage_place", some "col")] : Mapping) "storage_place" = some (some "col") ∧
    objGet ([] : Row) "col" = none ∧
    storagePlaceField.required = false ∧
    objGet (transformRow [] [("storage_place", some "col")] [storagePlaceField])
      storagePlaceField.name ≠ some "" ∧
    objGet (transformRow [] [("storage_place", some "col")] [storagePlaceField])
      storagePlaceField.name = none := by
  decide

/-- C3 (amended): record order follows row order, and per field: a field
mapped to a truthy (non-empty) header the row defines holds that (possibly
empty) value; a required field that is unmapped, mapped to the empty-string
header, or mapped to a header the row lacks holds the empty string; an
optional field in those same situations is absent from the record. -/
theorem C3_transform_per_field_cases :
    (∀ (rows : List Row) (mapping : Mapping) (schema : List CanonicalField),
       (transformAndValidate rows mapping schema).1 =
         rows.map fun row => transformRow row mapping schema) ∧
    (∀ (row : Row) (mapping : Mapping) (schema : List CanonicalField)
       (f : CanonicalField), f ∈ schema → (schema.map (·.name)).Nodup →
       ((∀ c v, truthyMappedHeader mapping f = some c → objGet row c = some v →
           objGet (transformRow row mapping schema) f.name = some v) ∧
        (f.required = true →
           (truthyMappedHeader mapping f = none ∨
            ∃ c, truthyMappedHeader mapping f = some c ∧ objGet row c = none) →
           objGet (transformRow row mapping schema) f.name = some "") ∧
        (f.required = false →
           (truthyMappedHeader mapping f = none ∨
            ∃ c, truthyMappedHeader mapping f = some c ∧ objGet row c = none) →
           objGet (transformRow row mapping schema) f.name = none))) := by
  constructor
  · intro rows mapping schema
    exact transformAndValidateAux_records mapping schema rows 0
  · intro row mapping schema f hf hnd
    have hc := transformRow_objGet row mapping schema f hf hnd
    refine ⟨?_, ?_, ?_⟩
    · intro c v hthc hrow
      rw [hc]
      simp [transformedValue, hthc, hrow]
    · intro hreq hdisj
      rw [hc]
      rcases hdisj with hn | ⟨c, hsc, hrn⟩
      · simp [transformedValue, hn, hreq]
      · simp [transformedValue, hsc, hrn, hreq]
    · intro hreq hdisj
      rw [hc]
      rcases hdisj with hn | ⟨c, hsc, hrn⟩
      · simp [transformedValue, hn, hreq]
      · simp [transformedValue, hsc, hrn, hreq]

/-- C3 witness: a mapped field whose header the row defines receives the
row's value. -/
theorem C3_transform_per_field_cases_witness :
    objGet (transformRow [("col", "x")] [("storage_place", some "col")]
      [storagePlaceField]) storagePlaceField.name = some "x" :=
  (C3_transform_per_field_cases.2 [("col", "x")] [("storage_place", some "col")]
    [storagePlaceField] storagePlaceField (by decide) (by decide)).1
    "col" "x" (by decide) (by decide)

/-! ## Claim C4: the 80% threshold -/

/-- C4: `isPerfectMapping` returns true only if at least 80% of the mapped
fields satisfy the spec's normalized-name match (equality with the field
name or the normalized label, or a substring match in either direction
against either form). -/
theorem C4_perfect_needs_80_percent_match
    (schema : List CanonicalField) (mapping : Mapping) (csvHeaders : List String)
    (h : isPerfectMapping schema mapping csvHeaders = true) :
    4 * (mappedValuesOf mapping).length ≤
      5 * schema.countP (fun f =>
        match objGet mapping f.name with
        | some (some mh) => claimPerfectMatch mh f
        | _ => false) := by
  obtain ⟨-, -, -, -, hfinal⟩ := isPerfectMapping_true_parts schema mapping csvHeaders h
  refine hfinal.trans (Nat.mul_le_mul_left 5 ?_)
  apply List.countP_mono_left
  intro f hfm hp
  rcases hg : objGet mapping f.name with _ | mv
  · rw [hg] at hp
    simp at hp
  · rcases mv with _ | mh
    · rw [hg] at hp
      simp at hp
    · simp only [hg] at hp ⊢
      rw [Bool.and_eq_true] at hp
      exact claimPerfectMatch_of_code mh f hp.2

/-- C4 witness: a one-field perfect mapping meets the 80% bound. -/
theorem C4_perfect_needs_80_percent_match_witness :
    4 * (mappedValuesOf [("item_category", some "item_category")]).length ≤
      5 * ([itemCategoryField].countP (fun f =>
        match objGet ([("item_category", some "item_category")] : Mapping) f.name with
        | some (some mh) => claimPerfectMatch mh f
        | _ => false)) :=
  C4_perfect_needs_80_percent_match [itemCategoryField]
    [("item_category", some "item_category")] ["item_category"] (by decide)

/-! ## Claim C9: necessary conditions of a perfect mapping -/

/-- C9: under the data-model invariant (the mapping's keys are exactly the
schema field names), a perfect mapping maps every required field, holds
pairwise distinct mapped headers all present in the CSV headers, and maps at
least one field; a mapping with zero mapped fields is never perfect, and
violating the required-mapped or the duplicate-free condition individually
forces `isPerfectMapping` to false. -/
theorem C9_perfect_mapping_necessary_conditions
    (schema : List CanonicalField) (mapping : Mapping) (csvHeaders : List String)
    (hkeys : mapping.map (·.1) = schema.map (·.name))
    (hnd : (schema.map (·.name)).Nodup) :
    (isPerfectMapping schema mapping csvHeaders = true →
       (∀ f ∈ schema, f.required = true →
          ∃ h', objGet mapping f.name = some (some h')) ∧
       (mappedValuesOf mapping).Nodup ∧
       (∀ h' ∈ mappedValuesOf mapping, h' ∈ csvHeaders) ∧
       (∃ f ∈ schema, ∃ h', objGet mapping f.name = some (some h'))) ∧
    (mappedValuesOf mapping = [] →
       isPerfectMapping schema mapping csvHeaders = false) ∧
    ((∃ f ∈ schema, f.required = true ∧ objGet mapping f.name = some none) →
       isPerfectMapping schema mapping csvHeaders = false) ∧
    (¬ (mappedValuesOf mapping).Nodup →
       isPerfectMapping schema mapping csvHeaders = false) := by
  refine ⟨?_, isPerfectMapping_false_of_none_mapped schema mapping csvHeaders,
    isPerfectMapping_false_of_required_null schema mapping csvHeaders,
    isPerfectMapping_false_of_dup schema mapping csvHeaders⟩
  intro h
  obtain ⟨hall, hlen, hexist, hpos, -⟩ :=
    isPerfectMapping_true_parts schema mapping csvHeaders h
  have hndk : (mapping.map (·.1)).Nodup := by
    rw [hkeys]
    exact hnd
  refine ⟨?_, ?_, hexist, ?_⟩
  · intro f hf hreq
    have hmem : f.name ∈ mapping.map (·.1) := by
      rw [hkeys]
      exact List.mem_map_of_mem (·.name) hf
    obtain ⟨v, hv⟩ := objGet_isSome_of_mem_keys mapping f.name hmem
    have hne := hall f hf hreq
    rcases v with _ | h'
    · exact absurd hv hne
    · exact ⟨h', hv⟩
  · exact List.dedup_eq_self.mp
      ((List.dedup_sublist (mappedValuesOf mapping)).eq_of_length hlen.symm)
  · obtain ⟨hd, hmem⟩ := List.exists_mem_of_length_pos hpos
    obtain ⟨ov, hov, hid⟩ := List.mem_filterMap.mp hmem
    obtain ⟨p, hp, hsnd⟩ := List.mem_map.mp hov
    have hov2 : p.2 = some hd := by
      rw [hsnd]
      exact hid
    have hkey : p.1 ∈ schema.map (·.name) := by
      rw [← hkeys]
      exact List.mem_map_of_mem (·.1) hp
    obtain ⟨f, hf, hfname⟩ := List.mem_map.mp hkey
    refine ⟨f, hf, hd, ?_⟩
    rw [hfname]
    have hobj := objGet_of_mem_nodup mapping p.1 p.2 hndk (by simpa using hp)
    rw [hov2] at hobj
    exact hobj

/-- C9 witness: the one-field perfect mapping has duplicate-free mapped
headers. -/
theorem C9_perfect_mapping_necessary_conditions_witness :
    (mappedValuesOf [("item_category", some "item_category")]).Nodup :=
  ((C9_perfect_mapping_necessary_conditions [itemCategoryField]
    [("item_category", some "item_category")] ["item_category"]
    (by decide) (by decide)).1 (by decide)).2.1

/-! ## Claim C8: the Auto-Mapper -/

/-- C8: each schema field is assigned independently by three strategies tried
in order, stopping at the first match; within a tier the CSV headers are
scanned in their given order and the first qualifying one wins; a field with
no qualifying header at any tier maps to null.  In the scenario with headers
`["Kategoria przedmiotu", "Opis"]` and field `item_category`, strategies 1
and 2 fail for every header and strategy 3 yields `"Kategoria przedmiotu"`. -/
theorem C8_auto_mapper_first_hit :
    (∀ (csvHeaders : List String) (schema : List CanonicalField)
       (f : CanonicalField), f ∈ schema → (schema.map (·.name)).Nodup →
       ∃ r, objGet (buildDefaultMapping csvHeaders schema) f.name = some r ∧
         ((r = none ∧ ∀ h ∈ csvHeaders,
             tier1Q f h = false ∧ tier2Q f h = false ∧ tier3Q f h = false) ∨
          (∃ h, r = some h ∧
            ((tier1Q f h = true ∧
               ∃ pre post, csvHeaders = pre ++ h :: post ∧
                 ∀ h' ∈ pre, tier1Q f h' = false) ∨
             (tier2Q f h = true ∧ (∀ h' ∈ csvHeaders, tier1Q f h' = false) ∧
               ∃ pre post, csvHeaders = pre ++ h :: post ∧
                 ∀ h' ∈ pre, tier2Q f h' = false) ∨
             (tier3Q f h = true ∧
               (∀ h' ∈ csvHeaders, tier1Q f h' = false ∧ tier2Q f h' = false) ∧
               ∃ pre post, csvHeaders = pre ++ h :: post ∧
                 ∀ h' ∈ pre, tier3Q f h' = false))))) ∧
    objGet (buildDefaultMapping ["Kategoria przedmiotu", "Opis"] [itemCategoryField])
      "item_category" = some (some "Kategoria przedmiotu") ∧
    (∀ h ∈ ["Kategoria przedmiotu", "Opis"],
      tier1Q itemCategoryField h = false ∧ tier2Q itemCategoryField h = false) ∧
    tier3Q itemCategoryField "Kategoria przedmiotu" = true := by
  refine ⟨?_, by decide, by decide, by decide⟩
  intro csvHeaders schema f hf hnd
  have hobj := buildDefaultMapping_objGet csvHeaders schema f hf hnd
  cases h1 : tier1Find csvHeaders (jsToLower f.name) with
  | some h =>
    have hm : matchFieldHeader csvHeaders f = some h := by
      simp only [matchFieldHeader]
      rw [h1]
    rw [hm] at hobj
    obtain ⟨hp, pre, post, hdec, hpre⟩ := find?_decomp _ csvHeaders h h1
    exact ⟨some h, hobj, Or.inr ⟨h, rfl,
      Or.inl ⟨hp, pre, post, hdec, fun h' hh => hpre h' hh⟩⟩⟩
  | none =>
    have hn1 : ∀ h' ∈ csvHeaders, tier1Q f h' = false := fun h' hh =>
      Bool.eq_false_iff.mpr (List.find?_eq_none.mp h1 h' hh)
    cases h2 : tier2Find csvHeaders (jsToLower f.name) with
    | some h =>
      have hm : matchFieldHeader csvHeaders f = some h := by
        simp only [matchFieldHeader]
        rw [h1, h2]
      rw [hm] at hobj
      obtain ⟨hp, pre, post, hdec, hpre⟩ := find?_decomp _ csvHeaders h h2
      exact ⟨some h, hobj, Or.inr ⟨h, rfl,
        Or.inr (Or.inl ⟨hp, hn1, pre, post, hdec, fun h' hh => hpre h' hh⟩)⟩⟩
    | none =>
      have hn2 : ∀ h' ∈ csvHeaders, tier2Q f h' = false := fun h' hh =>
        Bool.eq_false_iff.mpr (List.find?_eq_none.mp h2 h' hh)
      cases h3 : tier3Find csvHeaders (jsSplitWS (jsToLower f.label)) with
      | some h =>
        have hm : matchFieldHeader csvHeaders f = some h := by
          simp only [matchFieldHeader]
          rw [h1, h2, h3]
        rw [hm] at hobj
        obtain ⟨hp, pre, post, hdec, hpre⟩ := find?_decomp _ csvHeaders h h3
        exact ⟨some h, hobj, Or.inr ⟨h, rfl,
          Or.inr (Or.inr ⟨hp, fun h' hh => ⟨hn1 h' hh, hn2 h' hh⟩,
            pre, post, hdec, fun h' hh => hpre h' hh⟩)⟩⟩
      | none =>
        have hn3 : ∀ h' ∈ csvHeaders, tier3Q f h' = false := fun h' hh =>
          Bool.eq_false_iff.mpr (List.find?_eq_none.mp h3 h' hh)
        have hm : matchFieldHeader csvHeaders f = none := by
          simp only [matchFieldHeader]
          rw [h1, h2, h3]
        rw [hm] at hobj
        exact ⟨none, hobj, Or.inl ⟨rfl,
          fun h' hh => ⟨hn1 h' hh, hn2 h' hh, hn3 h' hh⟩⟩⟩

/-- C8 witness: the general first-hit characterization instantiated at the
scenario, together with the scenario's concrete assignment. -/
theorem C8_auto_mapper_first_hit_witness :
    objGet (buildDefaultMapping ["Kategoria przedmiotu", "Opis"] [itemCategoryField])
      "item_category" = some (some "Kategoria przedmiotu") := by
  obtain ⟨r, hr, hchar⟩ := C8_auto_mapper_first_hit.1
    ["Kategoria przedmiotu", "Opis"] [itemCategoryField] itemCategoryField
    (by decide) (by decide)
  exact C8_auto_mapper_first_hit.2.1

end LostFound
